import Mathlib

/-!
Shallow embedding of the SecureVaultDB contract (Solidity, FHEVM).

State model: Solidity mappings become total functions with the zero default,
addresses and ciphertext handles are Nat (0 is the zero address / the
uninitialized handle, matching `FHE.isInitialized`), and the FHE access-control
list is kept explicitly: `aclAllow h u` records `FHE.allow(h, u)` and
`aclThis h` records `FHE.allowThis(h)`.  `FHE.fromExternal` (the external
ciphertext verifier) is a parameter `verify : Nat -> Nat -> Option Nat`; a
`none` result is a verification revert.  A reverting call is `Except.error e`
and carries no state, matching EVM rollback semantics.
-/

namespace SecureVaultDB

/-- One entry of the `_databases` mapping (struct `Database` in the source).
The mapping default is the all-zero struct; `owner = 0` means "not found". -/
structure Database where
  owner : Nat
  name : String
  encryptedAccessAddress : Nat
  createdAt : Nat
deriving Repr, DecidableEq

/-- Events emitted by the contract. -/
inductive Event where
  | DatabaseCreated (databaseId : Nat) (owner : Nat) (name : String)
  | RecordStored (databaseId : Nat) (recordIndex : Nat)
  | AccessGranted (databaseId : Nat) (grantee : Nat)
deriving Repr, DecidableEq

/-- Revert reasons of the contract, one per `require` / external-verifier
failure, with the names the specification uses. -/
inductive VaultError where
  | NotFound
  | EmptyName
  | InvalidIdentity
  | NotOwner
  | Unauthorized
  | InvalidCiphertext
  | IndexOutOfRange
deriving Repr, DecidableEq

/-- Full contract storage plus the FHE access-control list and the event log. -/
structure VaultState where
  nextDatabaseId : Nat
  databases : Nat → Database
  databasesByOwner : Nat → List Nat
  records : Nat → List Nat
  authorizedUsers : Nat → List Nat
  isAuthorizedMap : Nat → Nat → Bool
  aclAllow : Nat → Nat → Bool
  aclThis : Nat → Bool
  events : List Event

/-- Freshly deployed contract: every mapping at its zero default. -/
def initialState : VaultState where
  nextDatabaseId := 0
  databases := fun _ => { owner := 0, name := "", encryptedAccessAddress := 0, createdAt := 0 }
  databasesByOwner := fun _ => []
  records := fun _ => []
  authorizedUsers := fun _ => []
  isAuthorizedMap := fun _ _ => false
  aclAllow := fun _ _ => false
  aclThis := fun _ => false
  events := []

/-- The `databaseExists` modifier: `_databases[databaseId].owner != address(0)`. -/
def dbExists (s : VaultState) (databaseId : Nat) : Bool :=
  (s.databases databaseId).owner != 0

/-- Successful-path state update of `createDatabase`: allocate
`nextDatabaseId + 1`, write the struct, index by owner, authorize the caller
(map and list), `FHE.allowThis` and `FHE.allow(caller)` on the stored handle,
emit `DatabaseCreated`. -/
def createUpdate (s : VaultState) (caller now : Nat) (name : String)
    (storedAddress : Nat) : VaultState :=
  let databaseId := s.nextDatabaseId + 1
  { s with
    nextDatabaseId := databaseId
    databases := fun i =>
      if i = databaseId then
        { owner := caller, name := name,
          encryptedAccessAddress := storedAddress, createdAt := now }
      else s.databases i
    databasesByOwner := fun a =>
      if a = caller then s.databasesByOwner a ++ [databaseId]
      else s.databasesByOwner a
    isAuthorizedMap := fun i u =>
      if i = databaseId ∧ u = caller then true else s.isAuthorizedMap i u
    authorizedUsers := fun i =>
      if i = databaseId then s.authorizedUsers i ++ [caller]
      else s.authorizedUsers i
    aclAllow := fun h u =>
      if h = storedAddress ∧ u = caller then true else s.aclAllow h u
    aclThis := fun h => if h = storedAddress then true else s.aclThis h
    events := s.events ++ [.DatabaseCreated databaseId caller name] }

/-- The `createDatabase` function.  Checks, in source order: non-empty name,
then external verification of the encrypted address, then the state update. -/
def createDatabase (s : VaultState) (verify : Nat → Nat → Option Nat)
    (caller now : Nat) (name : String) (encryptedAddress addressProof : Nat) :
    Except VaultError (Nat × VaultState) :=
  if name.length = 0 then
    .error .EmptyName
  else
    match verify encryptedAddress addressProof with
    | none => .error .InvalidCiphertext
    | some storedAddress =>
        .ok (s.nextDatabaseId + 1, createUpdate s caller now name storedAddress)

/-- Successful-path state update of `grantAccess` for a not-yet-authorized
user: record authorization (map and list), `FHE.allow` the access handle to
the user when it is initialized (nonzero), `FHE.allow` every stored record
handle to the user, emit `AccessGranted`. -/
def grantUpdate (s : VaultState) (databaseId user : Nat) : VaultState :=
  let encryptedAddress := (s.databases databaseId).encryptedAccessAddress
  { s with
    isAuthorizedMap := fun i u =>
      if i = databaseId ∧ u = user then true else s.isAuthorizedMap i u
    authorizedUsers := fun i =>
      if i = databaseId then s.authorizedUsers i ++ [user]
      else s.authorizedUsers i
    aclAllow := fun h u =>
      if u = user ∧ (encryptedAddress ≠ 0 ∧ h = encryptedAddress ∨ h ∈ s.records databaseId)
      then true else s.aclAllow h u
    events := s.events ++ [.AccessGranted databaseId user] }

/-- The `grantAccess` function.  Checks, in source order: database existence
(modifier), nonzero user, caller is owner; then the idempotent early return
when the user is already authorized (no state change, no event), else the
update. -/
def grantAccess (s : VaultState) (caller databaseId user : Nat) :
    Except VaultError VaultState :=
  if (s.databases databaseId).owner = 0 then .error .NotFound
  else if user = 0 then .error .InvalidIdentity
  else if (s.databases databaseId).owner ≠ caller then .error .NotOwner
  else if s.isAuthorizedMap databaseId user then .ok s
  else .ok (grantUpdate s databaseId user)

/-- Successful-path state update of `storeValue`: push the verified handle,
`FHE.allowThis`, `FHE.allow` to the owner and to every currently authorized
user, emit `RecordStored` with the new index (post-push length minus one,
i.e. the pre-push record count). -/
def storeUpdate (s : VaultState) (databaseId value : Nat) : VaultState :=
  let owner := (s.databases databaseId).owner
  { s with
    records := fun i =>
      if i = databaseId then s.records i ++ [value] else s.records i
    aclThis := fun h => if h = value then true else s.aclThis h
    aclAllow := fun h u =>
      if h = value ∧ (u = owner ∨ u ∈ s.authorizedUsers databaseId)
      then true else s.aclAllow h u
    events := s.events ++ [.RecordStored databaseId (s.records databaseId).length] }

/-- The `storeValue` function.  Checks, in source order: database existence
(modifier), caller authorized, then external verification of the value, then
the state update. -/
def storeValue (s : VaultState) (verify : Nat → Nat → Option Nat)
    (caller databaseId : Nat) (encryptedValue valueProof : Nat) :
    Except VaultError VaultState :=
  if (s.databases databaseId).owner = 0 then .error .NotFound
  else if ¬ s.isAuthorizedMap databaseId caller then .error .Unauthorized
  else
    match verify encryptedValue valueProof with
    | none => .error .InvalidCiphertext
    | some value => .ok (storeUpdate s databaseId value)

/-- The `getDatabase` view: metadata, record count and the grantee list. -/
def getDatabase (s : VaultState) (databaseId : Nat) :
    Except VaultError (String × Nat × Nat × Nat × Nat × List Nat) :=
  if (s.databases databaseId).owner = 0 then .error .NotFound
  else
    let db := s.databases databaseId
    .ok (db.name, db.owner, db.encryptedAccessAddress, db.createdAt,
      (s.records databaseId).length, s.authorizedUsers databaseId)

/-- The `getEncryptedAddress` view (the spec calls it `getAccessHandle`). -/
def getEncryptedAddress (s : VaultState) (databaseId : Nat) :
    Except VaultError Nat :=
  if (s.databases databaseId).owner = 0 then .error .NotFound
  else .ok (s.databases databaseId).encryptedAccessAddress

/-- The `getEncryptedRecords` view (the spec calls it `getRecordHandles`). -/
def getEncryptedRecords (s : VaultState) (databaseId : Nat) :
    Except VaultError (List Nat) :=
  if (s.databases databaseId).owner = 0 then .error .NotFound
  else .ok (s.records databaseId)

/-- The `getEncryptedRecord` view (the spec calls it `getRecordHandle`):
reverts with `IndexOutOfRange` unless `index < recordCount`. -/
def getEncryptedRecord (s : VaultState) (databaseId index : Nat) :
    Except VaultError Nat :=
  if (s.databases databaseId).owner = 0 then .error .NotFound
  else if h : index < (s.records databaseId).length then
    .ok ((s.records databaseId).get ⟨index, h⟩)
  else .error .IndexOutOfRange

/-- The `isAuthorized` view: membership test, guarded by the existence
modifier. -/
def isAuthorized (s : VaultState) (databaseId user : Nat) :
    Except VaultError Bool :=
  if (s.databases databaseId).owner = 0 then .error .NotFound
  else .ok (s.isAuthorizedMap databaseId user)

/-- The `databaseCount` view: the next-id counter. -/
def databaseCount (s : VaultState) : Nat :=
  s.nextDatabaseId

/-- The `getDatabasesByOwner` view. -/
def getDatabasesByOwner (s : VaultState) (ownerAddress : Nat) : List Nat :=
  s.databasesByOwner ownerAddress

/-- One successful contract call (a reverted call leaves no new state). -/
inductive Step : VaultState → VaultState → Prop where
  | create {s s' : VaultState} {verify : Nat → Nat → Option Nat}
      {caller now : Nat} {name : String} {p pr id : Nat} :
      createDatabase s verify caller now name p pr = .ok (id, s') → Step s s'
  | grant {s s' : VaultState} {caller databaseId user : Nat} :
      grantAccess s caller databaseId user = .ok s' → Step s s'
  | store {s s' : VaultState} {verify : Nat → Nat → Option Nat}
      {caller databaseId p pr : Nat} :
      storeValue s verify caller databaseId p pr = .ok s' → Step s s'

/-- States reachable from a fresh deployment by successful calls. -/
inductive Reachable : VaultState → Prop where
  | init : Reachable initialState
  | step {s s' : VaultState} : Reachable s → Step s s' → Reachable s'

/-- Number of `DatabaseCreated` events in a log. -/
def countCreated (evs : List Event) : Nat :=
  evs.countP fun e =>
    match e with
    | .DatabaseCreated _ _ _ => true
    | _ => false

/-- A concrete external verifier used for sample executions: accepts every
payload and returns a handle derived from it. -/
def demoVerify : Nat → Nat → Option Nat :=
  fun payload _ => some (payload + 100)

/-- Extract the post-state of a successful `createDatabase` call. -/
def okCreate (r : Except VaultError (Nat × VaultState)) : VaultState :=
  match r with
  | .ok (_, s) => s
  | .error _ => initialState

/-- Extract the post-state of a successful mutating call. -/
def okState (r : Except VaultError VaultState) : VaultState :=
  match r with
  | .ok s => s
  | .error _ => initialState

/-- Sample state: caller 1 creates database 1 named "ops" (handle 107). -/
def demoS1 : VaultState :=
  okCreate (createDatabase initialState demoVerify 1 0 "ops" 7 0)

/-- Sample state: the owner then stores one record (handle 105, index 0). -/
def demoS2 : VaultState :=
  okState (storeValue demoS1 demoVerify 1 1 5 0)

/-- Sample state: the owner then grants access to identity 2. -/
def demoS3 : VaultState :=
  okState (grantAccess demoS2 1 1 2)

/-- Inversion of a successful `createDatabase` call. -/
theorem createDatabase_ok {s s' : VaultState} {verify : Nat → Nat → Option Nat}
    {caller now : Nat} {name : String} {p pr id : Nat}
    (h : createDatabase s verify caller now name p pr = .ok (id, s')) :
    name.length ≠ 0 ∧ ∃ a, verify p pr = some a ∧
      id = s.nextDatabaseId + 1 ∧ s' = createUpdate s caller now name a := by
  by_cases hname : name.length = 0
  · simp [createDatabase, hname] at h
  · cases hv : verify p pr with
    | none => simp [createDatabase, hname, hv] at h
    | some a =>
      simp [createDatabase, hname, hv] at h
      exact ⟨hname, a, rfl, h.1.symm, h.2.symm⟩

/-- Inversion of a successful `grantAccess` call. -/
theorem grantAccess_ok {s s' : VaultState} {caller databaseId user : Nat}
    (h : grantAccess s caller databaseId user = .ok s') :
    (s.databases databaseId).owner ≠ 0 ∧ user ≠ 0 ∧
    (s.databases databaseId).owner = caller ∧
    ((s.isAuthorizedMap databaseId user = true ∧ s' = s) ∨
     (s.isAuthorizedMap databaseId user = false ∧
       s' = grantUpdate s databaseId user)) := by
  by_cases h1 : (s.databases databaseId).owner = 0
  · simp [grantAccess, h1] at h
  · by_cases h2 : user = 0
    · simp [grantAccess, h1, h2] at h
    · by_cases h3 : (s.databases databaseId).owner = caller
      · have hc : ¬ (caller = 0) := h3 ▸ h1
        by_cases h4 : s.isAuthorizedMap databaseId user = true
        · simp [grantAccess, h1, h2, h3, h4, hc] at h
          exact ⟨h1, h2, h3, Or.inl ⟨h4, h.symm⟩⟩
        · simp [grantAccess, h1, h2, h3, h4, hc] at h
          exact ⟨h1, h2, h3, Or.inr ⟨by simpa using h4, h.symm⟩⟩
      · simp [grantAccess, h1, h2, h3] at h

/-- Inversion of a successful `storeValue` call. -/
theorem storeValue_ok {s s' : VaultState} {verify : Nat → Nat → Option Nat}
    {caller databaseId p pr : Nat}
    (h : storeValue s verify caller databaseId p pr = .ok s') :
    (s.databases databaseId).owner ≠ 0 ∧
    s.isAuthorizedMap databaseId caller = true ∧
    ∃ value, verify p pr = some value ∧ s' = storeUpdate s databaseId value := by
  by_cases h1 : (s.databases databaseId).owner = 0
  · simp [storeValue, h1] at h
  · by_cases h2 : s.isAuthorizedMap databaseId caller = true
    · cases hv : verify p pr with
      | none => simp [storeValue, h1, h2, hv] at h
      | some value =>
        simp [storeValue, h1, h2, hv] at h
        exact ⟨h1, h2, value, rfl, h.symm⟩
    · simp [storeValue, h1, h2] at h

/-- No successful call ever clears an authorization-map entry. -/
theorem step_auth_mono {s t : VaultState} (hst : Step s t) {id u : Nat}
    (h : s.isAuthorizedMap id u = true) : t.isAuthorizedMap id u = true := by
  cases hst with
  | create hc =>
    obtain ⟨-, a, -, -, hs⟩ := createDatabase_ok hc
    subst hs
    simp only [createUpdate]
    split
    · rfl
    · exact h
  | grant hg =>
    obtain ⟨-, -, -, hcase⟩ := grantAccess_ok hg
    rcases hcase with ⟨-, hs⟩ | ⟨-, hs⟩
    · subst hs; exact h
    · subst hs
      simp only [grantUpdate]
      split
      · rfl
      · exact h
  | store hv =>
    obtain ⟨-, -, value, -, hs⟩ := storeValue_ok hv
    subst hs
    exact h

/-- Every successful call only appends to the ordered grantee list. -/
theorem step_authList_mono {s t : VaultState} (hst : Step s t) (id : Nat) :
    ∃ l, t.authorizedUsers id = s.authorizedUsers id ++ l := by
  cases hst with
  | create hc =>
    obtain ⟨-, a, -, -, hs⟩ := createDatabase_ok hc
    subst hs
    simp only [createUpdate]
    split
    · exact ⟨_, rfl⟩
    · exact ⟨[], by simp⟩
  | grant hg =>
    obtain ⟨-, -, -, hcase⟩ := grantAccess_ok hg
    rcases hcase with ⟨-, hs⟩ | ⟨-, hs⟩
    · subst hs; exact ⟨[], by simp⟩
    · subst hs
      simp only [grantUpdate]
      split
      · exact ⟨_, rfl⟩
      · exact ⟨[], by simp⟩
  | store hv =>
    obtain ⟨-, -, value, -, hs⟩ := storeValue_ok hv
    subst hs
    exact ⟨[], by simp [storeUpdate]⟩

/-- No successful call ever revokes an `FHE.allow` visibility grant. -/
theorem step_acl_mono {s t : VaultState} (hst : Step s t) {hdl u : Nat}
    (h : s.aclAllow hdl u = true) : t.aclAllow hdl u = true := by
  cases hst with
  | create hc =>
    obtain ⟨-, a, -, -, hs⟩ := createDatabase_ok hc
    subst hs
    simp only [createUpdate]
    split
    · rfl
    · exact h
  | grant hg =>
    obtain ⟨-, -, -, hcase⟩ := grantAccess_ok hg
    rcases hcase with ⟨-, hs⟩ | ⟨-, hs⟩
    · subst hs; exact h
    · subst hs
      simp only [grantUpdate]
      split
      · rfl
      · exact h
  | store hv =>
    obtain ⟨-, -, value, -, hs⟩ := storeValue_ok hv
    subst hs
    simp only [storeUpdate]
    split
    · rfl
    · exact h

/-- Every successful call only appends to a record sequence. -/
theorem step_records_mono {s t : VaultState} (hst : Step s t) (id : Nat) :
    ∃ l, t.records id = s.records id ++ l := by
  cases hst with
  | create hc =>
    obtain ⟨-, a, -, -, hs⟩ := createDatabase_ok hc
    subst hs
    exact ⟨[], by simp [createUpdate]⟩
  | grant hg =>
    obtain ⟨-, -, -, hcase⟩ := grantAccess_ok hg
    rcases hcase with ⟨-, hs⟩ | ⟨-, hs⟩
    · subst hs; exact ⟨[], by simp⟩
    · subst hs; exact ⟨[], by simp [grantUpdate]⟩
  | store hv =>
    obtain ⟨-, -, value, -, hs⟩ := storeValue_ok hv
    subst hs
    simp only [storeUpdate]
    split
    · exact ⟨_, rfl⟩
    · exact ⟨[], by simp⟩

/-- Membership in the grantee list is preserved by every successful call. -/
theorem step_authMem_mono {s t : VaultState} (hst : Step s t) {id u : Nat}
    (h : u ∈ s.authorizedUsers id) : u ∈ t.authorizedUsers id := by
  obtain ⟨l, hl⟩ := step_authList_mono hst id
  rw [hl]
  exact List.mem_append_left _ h

/-- State invariant maintained by every reachable state: ids above the
counter are untouched, id 0 is never a database, the authorization map and
the ordered grantee list agree, the grantee list is duplicate-free, and the
owner of every existing database is authorized. -/
structure Inv (s : VaultState) : Prop where
  fresh : ∀ id, s.nextDatabaseId < id →
    (s.databases id).owner = 0 ∧ s.authorizedUsers id = [] ∧
    ∀ u, s.isAuthorizedMap id u = false
  zeroId : (s.databases 0).owner = 0
  authMem : ∀ id u, s.isAuthorizedMap id u = true ↔ u ∈ s.authorizedUsers id
  authNodup : ∀ id, (s.authorizedUsers id).Nodup
  ownerAuth : ∀ id, (s.databases id).owner ≠ 0 →
    s.isAuthorizedMap id (s.databases id).owner = true

/-- The fresh deployment satisfies the invariant. -/
theorem inv_init : Inv initialState := by
  refine ⟨?_, ?_, ?_, ?_, ?_⟩ <;> simp [initialState]

/-- An existing database has an id no larger than the counter. -/
theorem inv_id_le {s : VaultState} (hinv : Inv s) {id : Nat}
    (h : (s.databases id).owner ≠ 0) : id ≤ s.nextDatabaseId := by
  by_contra hgt
  exact h (hinv.fresh id (by omega)).1

/-- The invariant is preserved by the `createDatabase` success update. -/
theorem inv_createUpdate {s : VaultState} (hinv : Inv s)
    (caller now : Nat) (name : String) (a : Nat) :
    Inv (createUpdate s caller now name a) := by
  set d := s.nextDatabaseId + 1 with hd
  obtain ⟨hOwn, hList, hMap⟩ := hinv.fresh d (by omega)
  refine ⟨?_, ?_, ?_, ?_, ?_⟩
  · intro id hid
    simp only [createUpdate] at hid ⊢
    have hne : id ≠ d := by omega
    have hgt : s.nextDatabaseId < id := by omega
    obtain ⟨h1, h2, h3⟩ := hinv.fresh id hgt
    refine ⟨?_, ?_, ?_⟩
    · simp [← hd, hne, h1]
    · simp [← hd, hne, h2]
    · intro u
      simp [← hd, hne, h3 u]
  · have : (0:Nat) ≠ d := by omega
    simp [createUpdate, ← hd, this, hinv.zeroId]
  · intro id u
    by_cases hne : id = d
    · subst hne
      simp only [createUpdate, ← hd]
      simp [hList, hMap u]
    · simp only [createUpdate, ← hd]
      simp only [if_neg hne]
      have : ¬ (id = d ∧ u = caller) := fun hc => hne hc.1
      simp only [if_neg this]
      exact hinv.authMem id u
  · intro id
    by_cases hne : id = d
    · subst hne
      simp [createUpdate, ← hd, hList]
    · simp [createUpdate, ← hd, hne, hinv.authNodup id]
  · intro id
    by_cases hne : id = d
    · subst hne
      simp [createUpdate, ← hd]
    · simp only [createUpdate, ← hd]
      simp only [if_neg hne]
      intro hown
      have := hinv.ownerAuth id hown
      by_cases hiu : id = d ∧ (s.databases id).owner = caller
      · exact absurd hiu.1 hne
      · simp [if_neg hiu, this]

/-- The invariant is preserved by the `grantAccess` success update on a
not-yet-authorized user of an existing database. -/
theorem inv_grantUpdate {s : VaultState} (hinv : Inv s) {databaseId user : Nat}
    (hdb : (s.databases databaseId).owner ≠ 0)
    (hnew : s.isAuthorizedMap databaseId user = false) :
    Inv (grantUpdate s databaseId user) := by
  have hle : databaseId ≤ s.nextDatabaseId := inv_id_le hinv hdb
  have hnotmem : user ∉ s.authorizedUsers databaseId := by
    intro hmem
    have := (hinv.authMem databaseId user).mpr hmem
    rw [this] at hnew
    exact Bool.noConfusion hnew
  refine ⟨?_, ?_, ?_, ?_, ?_⟩
  · intro id hid
    simp only [grantUpdate] at hid ⊢
    have hne : id ≠ databaseId := by omega
    obtain ⟨h1, h2, h3⟩ := hinv.fresh id hid
    refine ⟨h1, by simp [hne, h2], ?_⟩
    intro u
    have : ¬ (id = databaseId ∧ u = user) := fun hc => hne hc.1
    simp [this, h3 u]
  · exact hinv.zeroId
  · intro id u
    by_cases hne : id = databaseId
    · subst hne
      simp only [grantUpdate]
      by_cases hu : u = user
      · subst hu
        simp
      · have : ¬ (id = id ∧ u = user) := fun hc => hu hc.2
        simp only [if_pos rfl, if_pos, List.mem_append]
        simp [hu, hinv.authMem id u]
    · simp only [grantUpdate]
      have : ¬ (id = databaseId ∧ u = user) := fun hc => hne hc.1
      simp [this, hne, hinv.authMem id u]
  · intro id
    by_cases hne : id = databaseId
    · subst hne
      have hlist : (grantUpdate s id user).authorizedUsers id =
          s.authorizedUsers id ++ [user] := by
        simp [grantUpdate]
      rw [hlist, List.nodup_append]
      exact ⟨hinv.authNodup id, List.nodup_singleton user,
        by simpa [List.disjoint_singleton] using hnotmem⟩
    · simp [grantUpdate, hne, hinv.authNodup id]
  · intro id hown
    simp only [grantUpdate] at hown ⊢
    have := hinv.ownerAuth id hown
    by_cases hc : id = databaseId ∧ (s.databases id).owner = user
    · simp only [if_pos hc]
    · simp [if_neg hc, this]

/-- The invariant is preserved by the `storeValue` success update. -/
theorem inv_storeUpdate {s : VaultState} (hinv : Inv s)
    (databaseId value : Nat) : Inv (storeUpdate s databaseId value) := by
  refine ⟨?_, hinv.zeroId, hinv.authMem, hinv.authNodup, hinv.ownerAuth⟩
  intro id hid
  simp only [storeUpdate] at hid ⊢
  exact hinv.fresh id hid

/-- The invariant is preserved by every successful call. -/
theorem inv_step {s t : VaultState} (hinv : Inv s) (hst : Step s t) : Inv t := by
  cases hst with
  | create hc =>
    obtain ⟨-, a, -, -, hs⟩ := createDatabase_ok hc
    subst hs
    exact inv_createUpdate hinv _ _ _ _
  | grant hg =>
    obtain ⟨hdb, -, -, hcase⟩ := grantAccess_ok hg
    rcases hcase with ⟨-, hs⟩ | ⟨hnew, hs⟩
    · subst hs; exact hinv
    · subst hs; exact inv_grantUpdate hinv hdb hnew
  | store hv =>
    obtain ⟨-, -, value, -, hs⟩ := storeValue_ok hv
    subst hs
    exact inv_storeUpdate hinv _ _

/-- Every reachable state satisfies the invariant. -/
theorem reachable_inv {s : VaultState} (hr : Reachable s) : Inv s := by
  induction hr with
  | init => exact inv_init
  | step _ hst ih => exact inv_step ih hst

/-- An existing database's struct is never modified by a later call. -/
theorem step_preserves_db {s t : VaultState} (hinv : Inv s) (hst : Step s t)
    {id : Nat} (h : (s.databases id).owner ≠ 0) :
    t.databases id = s.databases id := by
  cases hst with
  | create hc =>
    obtain ⟨-, a, -, -, hs⟩ := createDatabase_ok hc
    subst hs
    have hle : id ≤ s.nextDatabaseId := inv_id_le hinv h
    have hne : id ≠ s.nextDatabaseId + 1 := by omega
    simp [createUpdate, hne]
  | grant hg =>
    obtain ⟨-, -, -, hcase⟩ := grantAccess_ok hg
    rcases hcase with ⟨-, hs⟩ | ⟨-, hs⟩ <;> subst hs <;> rfl
  | store hv =>
    obtain ⟨-, -, value, -, hs⟩ := storeValue_ok hv
    subst hs
    rfl

/-- Reachability is closed under sequences of successful calls. -/
theorem reachable_star {s t : VaultState} (hr : Reachable s)
    (hst : Relation.ReflTransGen Step s t) : Reachable t := by
  induction hst with
  | refl => exact hr
  | tail _ h ih => exact Reachable.step ih h

/-- Along any run from a reachable state, an existing database keeps its
struct and an authorized user stays authorized. -/
theorem auth_persists {s t : VaultState} (hr : Reachable s)
    (hst : Relation.ReflTransGen Step s t) {id u : Nat}
    (hdb : (s.databases id).owner ≠ 0) (ha : s.isAuthorizedMap id u = true) :
    t.databases id = s.databases id ∧ t.isAuthorizedMap id u = true := by
  induction hst with
  | refl => exact ⟨rfl, ha⟩
  | tail hsb hbc ih =>
    obtain ⟨ih1, ih2⟩ := ih
    have hrb := reachable_star hr hsb
    have hinvb := reachable_inv hrb
    have hdbb : _ := ih1 ▸ hdb
    constructor
    · rw [step_preserves_db hinvb hbc hdbb, ih1]
    · exact step_auth_mono hbc ih2

/-- Membership in the grantee list is preserved by any run of calls. -/
theorem star_authMem_mono {s t : VaultState}
    (hst : Relation.ReflTransGen Step s t) {id u : Nat}
    (h : u ∈ s.authorizedUsers id) : u ∈ t.authorizedUsers id := by
  induction hst with
  | refl => exact h
  | tail _ hbc ih => exact step_authMem_mono hbc ih

/-- The sample create call succeeds and returns id 1 with state `demoS1`. -/
theorem demo_create_eq :
    createDatabase initialState demoVerify 1 0 "ops" 7 0 = .ok (1, demoS1) := rfl

/-- The sample store call succeeds with state `demoS2`. -/
theorem demo_store_eq :
    storeValue demoS1 demoVerify 1 1 5 0 = .ok demoS2 := rfl

/-- The sample grant call succeeds with state `demoS3`. -/
theorem demo_grant_eq :
    grantAccess demoS2 1 1 2 = .ok demoS3 := rfl

/-- `demoS1` is reachable. -/
theorem demoS1_reachable : Reachable demoS1 :=
  Reachable.step Reachable.init (Step.create demo_create_eq)

/-- `demoS2` is reachable. -/
theorem demoS2_reachable : Reachable demoS2 :=
  Reachable.step demoS1_reachable (Step.store demo_store_eq)

/-- `demoS3` is reachable. -/
theorem demoS3_reachable : Reachable demoS3 :=
  Reachable.step demoS2_reachable (Step.grant demo_grant_eq)

/-- C4. grantAccess is idempotent: granting an already-authorized identity
succeeds as a no-op returning the state unchanged (so no duplicate list
entry and no event), and a second grant right after any successful grant
leaves the state of the first one unchanged. -/
theorem grantAccess_idempotent {s : VaultState} {caller databaseId user : Nat} :
    ((s.databases databaseId).owner ≠ 0 → user ≠ 0 →
      (s.databases databaseId).owner = caller →
      s.isAuthorizedMap databaseId user = true →
      grantAccess s caller databaseId user = .ok s) ∧
    (∀ s', grantAccess s caller databaseId user = .ok s' →
      grantAccess s' caller databaseId user = .ok s') := by
  constructor
  · intro h1 h2 h3 h4
    have hc : ¬ (caller = 0) := h3 ▸ h1
    simp [grantAccess, h1, h2, h3, h4, hc]
  · intro s' hok
    obtain ⟨h1, h2, h3, hcase⟩ := grantAccess_ok hok
    have hc : ¬ (caller = 0) := h3 ▸ h1
    rcases hcase with ⟨h4, hs⟩ | ⟨h4, hs⟩
    · subst hs
      simp [grantAccess, h1, h2, h3, h4, hc]
    · subst hs
      have hdb : (grantUpdate s databaseId user).databases = s.databases := rfl
      have hauth : (grantUpdate s databaseId user).isAuthorizedMap databaseId user
          = true := by
        simp [grantUpdate]
      simp [grantAccess, hdb, h1, h2, h3, hauth, hc]

/-- C4 witness: a second grant of identity 2 right after `demoS3` granted it
is a no-op returning `demoS3` itself. -/
theorem grantAccess_idempotent_witness :
    grantAccess demoS3 1 1 2 = .ok demoS3 :=
  (@grantAccess_idempotent demoS2 1 1 2).2 demoS3 demo_grant_eq

/-- C2. A store by any authorized caller (owner or grantee) on an existing
database with a verifier-accepted payload succeeds, appends the new handle at
index recordCount (so the count grows by exactly one), grants the contract
and the owner visibility over it, extends visibility to every currently
authorized identity, and emits RecordStored with the database id and the new
index. -/
theorem storeValue_spec {s : VaultState} {verify : Nat → Nat → Option Nat}
    {caller databaseId p pr value : Nat}
    (hdb : (s.databases databaseId).owner ≠ 0)
    (hauth : s.isAuthorizedMap databaseId caller = true)
    (hv : verify p pr = some value) :
    ∃ s', storeValue s verify caller databaseId p pr = .ok s' ∧
      s'.records databaseId = s.records databaseId ++ [value] ∧
      (s'.records databaseId).length = (s.records databaseId).length + 1 ∧
      s'.aclThis value = true ∧
      s'.aclAllow value (s.databases databaseId).owner = true ∧
      (∀ u ∈ s.authorizedUsers databaseId, s'.aclAllow value u = true) ∧
      s'.events = s.events ++
        [Event.RecordStored databaseId (s.records databaseId).length] := by
  refine ⟨storeUpdate s databaseId value, ?_, ?_, ?_, ?_, ?_, ?_, ?_⟩
  · simp [storeValue, hdb, hauth, hv]
  · simp [storeUpdate]
  · simp [storeUpdate]
  · simp [storeUpdate]
  · simp [storeUpdate]
  · intro u hu
    simp [storeUpdate, hu]
  · simp [storeUpdate]

/-- C2 witness: the sample store on `demoS1` by its owner. -/
theorem storeValue_spec_witness :
    ∃ s', storeValue demoS1 demoVerify 1 1 5 0 = .ok s' ∧
      s'.records 1 = demoS1.records 1 ++ [105] ∧
      (s'.records 1).length = (demoS1.records 1).length + 1 ∧
      s'.aclThis 105 = true ∧
      s'.aclAllow 105 (demoS1.databases 1).owner = true ∧
      (∀ u ∈ demoS1.authorizedUsers 1, s'.aclAllow 105 u = true) ∧
      s'.events = demoS1.events ++
        [Event.RecordStored 1 (demoS1.records 1).length] :=
  @storeValue_spec demoS1 demoVerify 1 1 5 0 105 (by decide) (by decide) rfl

/-- C9. On an existing database, getEncryptedRecord reverts with
IndexOutOfRange exactly when the index is at least recordCount, otherwise it
returns the stored handle at that index; in particular right after a
successful storeValue it returns the appended handle at the new index.
Reads return values only and change no state. -/
theorem getEncryptedRecord_spec {s : VaultState} {databaseId index : Nat}
    (hdb : (s.databases databaseId).owner ≠ 0) :
    (getEncryptedRecord s databaseId index = .error .IndexOutOfRange ↔
      (s.records databaseId).length ≤ index) ∧
    (∀ hlt : index < (s.records databaseId).length,
      getEncryptedRecord s databaseId index
        = .ok ((s.records databaseId).get ⟨index, hlt⟩)) ∧
    (∀ verify : Nat → Nat → Option Nat, ∀ caller p pr value : Nat,
      ∀ s' : VaultState,
      verify p pr = some value →
      storeValue s verify caller databaseId p pr = .ok s' →
      getEncryptedRecord s' databaseId (s.records databaseId).length
        = .ok value) := by
  refine ⟨?_, ?_, ?_⟩
  · by_cases hlt : index < (s.records databaseId).length
    · simp [getEncryptedRecord, hdb, hlt]
    · simp [getEncryptedRecord, hdb, hlt]
      omega
  · intro hlt
    simp [getEncryptedRecord, hdb, hlt]
  · intro verify caller p pr value s' hv hok
    obtain ⟨-, -, value2, hv2, hs⟩ := storeValue_ok hok
    rw [hv] at hv2
    obtain rfl : value = value2 := Option.some.inj hv2
    subst hs
    have hrec : (storeUpdate s databaseId value).records databaseId
        = s.records databaseId ++ [value] := by
      simp [storeUpdate]
    have hdb2 : ((storeUpdate s databaseId value).databases databaseId).owner ≠ 0 :=
      hdb
    have hlt : (s.records databaseId).length
        < ((storeUpdate s databaseId value).records databaseId).length := by
      rw [hrec]
      simp
    simp only [getEncryptedRecord, if_neg hdb2, dif_pos hlt]
    congr 1
    rw [List.get_eq_getElem]
    simp [hrec]

/-- C9 witness: on `demoS2` (one record, handle 105) index 0 reads back the
stored handle and index 99 reverts with IndexOutOfRange. -/
theorem getEncryptedRecord_spec_witness :
    getEncryptedRecord demoS2 1 0 = .ok 105 ∧
    getEncryptedRecord demoS2 1 99 = .error .IndexOutOfRange := by
  have h0 := @getEncryptedRecord_spec demoS2 1 0 (by decide)
  have h99 := @getEncryptedRecord_spec demoS2 1 99 (by decide)
  exact ⟨h0.2.1 (by decide), h99.1.mpr (by decide)⟩

/-- C5. storeValue by a caller outside the authorization set of an existing
database reverts with Unauthorized, for every verifier (so the authorization
check precedes payload verification); a revert leaves all state unchanged. -/
theorem storeValue_unauthorized {s : VaultState} {caller databaseId : Nat}
    (hdb : (s.databases databaseId).owner ≠ 0)
    (hnot : s.isAuthorizedMap databaseId caller = false) :
    ∀ verify : Nat → Nat → Option Nat, ∀ p pr : Nat,
      storeValue s verify caller databaseId p pr = .error .Unauthorized := by
  intro verify p pr
  simp [storeValue, hdb, hnot]

/-- C5 witness: identity 3 is not authorized on database 1 of `demoS1`, and
its store attempt reverts with Unauthorized even under a rejecting verifier. -/
theorem storeValue_unauthorized_witness :
    (demoS1.databases 1).owner ≠ 0 ∧ demoS1.isAuthorizedMap 1 3 = false ∧
    storeValue demoS1 (fun _ _ => none) 3 1 5 0 = .error .Unauthorized :=
  ⟨by decide, by decide,
    @storeValue_unauthorized demoS1 3 1 (by decide) (by decide)
      (fun _ _ => none) 5 0⟩

/-- C6. grantAccess reverts with NotFound on an absent database, with
InvalidIdentity on the zero identity, and with NotOwner for a non-owner
caller; each revert leaves all state unchanged. -/
theorem grantAccess_error_cases {s : VaultState} {caller databaseId user : Nat} :
    ((s.databases databaseId).owner = 0 →
      grantAccess s caller databaseId user = .error .NotFound) ∧
    ((s.databases databaseId).owner ≠ 0 → user = 0 →
      grantAccess s caller databaseId user = .error .InvalidIdentity) ∧
    ((s.databases databaseId).owner ≠ 0 → user ≠ 0 →
      (s.databases databaseId).owner ≠ caller →
      grantAccess s caller databaseId user = .error .NotOwner) := by
  refine ⟨?_, ?_, ?_⟩
  · intro h1
    simp [grantAccess, h1]
  · intro h1 h2
    simp [grantAccess, h1, h2]
  · intro h1 h2 h3
    simp [grantAccess, h1, h2, h3]

/-- C6 witness: the three revert cases at concrete inputs on `demoS1`. -/
theorem grantAccess_error_cases_witness :
    grantAccess demoS1 1 99 2 = .error .NotFound ∧
    grantAccess demoS1 1 1 0 = .error .InvalidIdentity ∧
    grantAccess demoS1 3 1 2 = .error .NotOwner :=
  ⟨(@grantAccess_error_cases demoS1 1 99 2).1 (by decide),
   (@grantAccess_error_cases demoS1 1 1 0).2.1 (by decide) rfl,
   (@grantAccess_error_cases demoS1 3 1 2).2.2 (by decide) (by decide) (by decide)⟩

/-- C8. createDatabase reverts with EmptyName on an empty name and with
InvalidCiphertext when the external verifier rejects the payload; a revert
allocates no id, records nothing and emits nothing (all state unchanged). -/
theorem createDatabase_failure_atomic {s : VaultState}
    {verify : Nat → Nat → Option Nat} {caller now : Nat} {name : String}
    {p pr : Nat} :
    (name.length = 0 →
      createDatabase s verify caller now name p pr = .error .EmptyName) ∧
    (name.length ≠ 0 → verify p pr = none →
      createDatabase s verify caller now name p pr = .error .InvalidCiphertext) := by
  constructor
  · intro h1
    simp [createDatabase, h1]
  · intro h1 h2
    simp [createDatabase, h1, h2]

/-- C8 witness: the two creation revert cases at concrete inputs. -/
theorem createDatabase_failure_atomic_witness :
    createDatabase initialState demoVerify 1 0 "" 7 0 = .error .EmptyName ∧
    createDatabase initialState (fun _ _ => none) 1 0 "ops" 7 0
      = .error .InvalidCiphertext :=
  ⟨(@createDatabase_failure_atomic initialState demoVerify 1 0 "" 7 0).1 rfl,
   (@createDatabase_failure_atomic initialState (fun _ _ => none) 1 0 "ops" 7 0).2
     (by decide) rfl⟩

/-- C1. A successful grant of a not-yet-authorized identity adds it to the
authorization map and appends it to the ordered grantee list, extends
visibility of the access handle to it when that handle is initialized
(nonzero), extends visibility of every record handle existing at grant time,
keeps isAuthorized true for all subsequent reads along any run, and gives
the identity visibility over every record appended later to the database. -/
theorem grantAccess_new_user_spec {s s' : VaultState}
    {caller databaseId user : Nat}
    (hr : Reachable s)
    (hnew : s.isAuthorizedMap databaseId user = false)
    (hok : grantAccess s caller databaseId user = .ok s') :
    s'.isAuthorizedMap databaseId user = true ∧
    s'.authorizedUsers databaseId = s.authorizedUsers databaseId ++ [user] ∧
    ((s.databases databaseId).encryptedAccessAddress ≠ 0 →
      s'.aclAllow (s.databases databaseId).encryptedAccessAddress user = true) ∧
    (∀ h ∈ s.records databaseId, s'.aclAllow h user = true) ∧
    (∀ t, Relation.ReflTransGen Step s' t →
      isAuthorized t databaseId user = .ok true) ∧
    (∀ t t' : VaultState, ∀ verify : Nat → Nat → Option Nat,
      ∀ c p pr value : Nat,
      Relation.ReflTransGen Step s' t →
      verify p pr = some value →
      storeValue t verify c databaseId p pr = .ok t' →
      t'.aclAllow value user = true) := by
  obtain ⟨hdb, hu0, howner, hcase⟩ := grantAccess_ok hok
  rcases hcase with ⟨h4, -⟩ | ⟨-, hs⟩
  · rw [h4] at hnew
    exact Bool.noConfusion hnew
  subst hs
  have hauth2 : (grantUpdate s databaseId user).isAuthorizedMap databaseId user
      = true := by
    simp [grantUpdate]
  have hdb2 : ((grantUpdate s databaseId user).databases databaseId).owner ≠ 0 :=
    hdb
  have hr2 : Reachable (grantUpdate s databaseId user) :=
    Reachable.step hr (Step.grant hok)
  refine ⟨hauth2, ?_, ?_, ?_, ?_, ?_⟩
  · simp [grantUpdate]
  · intro hinit
    simp [grantUpdate, hinit]
  · intro h hmem
    simp [grantUpdate, hmem]
  · intro t hstar
    obtain ⟨hdbt, hat⟩ := auth_persists hr2 hstar hdb2 hauth2
    have hown : (t.databases databaseId).owner ≠ 0 := by
      rw [hdbt]
      exact hdb2
    simp [isAuthorized, hown, hat]
  · intro t t' verify c p pr value hstar hv hok2
    have hmem2 : user ∈ (grantUpdate s databaseId user).authorizedUsers databaseId := by
      simp [grantUpdate]
    have hmemt : user ∈ t.authorizedUsers databaseId :=
      star_authMem_mono hstar hmem2
    obtain ⟨-, -, value2, hv2, hs2⟩ := storeValue_ok hok2
    rw [hv] at hv2
    obtain rfl : value = value2 := Option.some.inj hv2
    subst hs2
    simp [storeUpdate, hmemt]

/-- C1 witness: granting identity 2 on database 1 of `demoS2` appends it to
the grantee list and gives it visibility over the existing record handle. -/
theorem grantAccess_new_user_spec_witness :
    demoS2.isAuthorizedMap 1 2 = false ∧
    demoS3.isAuthorizedMap 1 2 = true ∧
    demoS3.authorizedUsers 1 = demoS2.authorizedUsers 1 ++ [2] ∧
    demoS3.aclAllow 105 2 = true := by
  have h := grantAccess_new_user_spec demoS2_reachable (by decide) demo_grant_eq
  exact ⟨by decide, h.1, h.2.1, h.2.2.2.1 105 (by decide)⟩

/-- C3. In every reachable state, for every existing database: an identity
is in the authorization map exactly when it occurs exactly once in the
ordered grantee list (which is duplicate-free), the owner is a member, and
no call ever removes a map entry or a list entry (membership is monotonic). -/
theorem auth_set_list_sync {s : VaultState} (hr : Reachable s) :
    (∀ databaseId, dbExists s databaseId = true →
      (∀ u, s.isAuthorizedMap databaseId u = true ↔
        (s.authorizedUsers databaseId).count u = 1) ∧
      (s.authorizedUsers databaseId).Nodup ∧
      s.isAuthorizedMap databaseId (s.databases databaseId).owner = true) ∧
    (∀ t, Step s t → ∀ databaseId u,
      (s.isAuthorizedMap databaseId u = true →
        t.isAuthorizedMap databaseId u = true) ∧
      ∃ l, t.authorizedUsers databaseId = s.authorizedUsers databaseId ++ l) := by
  have hinv := reachable_inv hr
  constructor
  · intro databaseId hdb
    have hown : (s.databases databaseId).owner ≠ 0 := by
      simpa [dbExists] using hdb
    refine ⟨?_, hinv.authNodup databaseId, hinv.ownerAuth databaseId hown⟩
    intro u
    constructor
    · intro h
      exact List.count_eq_one_of_mem (hinv.authNodup databaseId)
        ((hinv.authMem databaseId u).mp h)
    · intro h
      exact (hinv.authMem databaseId u).mpr (List.count_pos_iff.mp (by omega))
  · intro t hst databaseId u
    exact ⟨step_auth_mono hst, step_authList_mono hst databaseId⟩

/-- C3 witness: in `demoS3`, database 1 exists, identity 2 occurs exactly
once in the grantee list, and the owner tests as authorized. -/
theorem auth_set_list_sync_witness :
    dbExists demoS3 1 = true ∧ (demoS3.authorizedUsers 1).count 2 = 1 ∧
    demoS3.isAuthorizedMap 1 (demoS3.databases 1).owner = true := by
  have h := (auth_set_list_sync demoS3_reachable).1 1 (by decide)
  exact ⟨by decide, (h.1 2).mp (by decide), h.2.2⟩

/-- The next-id counter of a reachable state equals the number of
DatabaseCreated events emitted so far. -/
theorem counter_eq_countCreated {s : VaultState} (hr : Reachable s) :
    s.nextDatabaseId = countCreated s.events := by
  induction hr with
  | init => rfl
  | step hprev hst ih =>
    cases hst with
    | create hc =>
      obtain ⟨-, a, -, -, hs⟩ := createDatabase_ok hc
      subst hs
      simp [createUpdate, countCreated, List.countP_append, List.countP_cons]
      rw [countCreated] at ih
      omega
    | grant hg =>
      rcases (grantAccess_ok hg).2.2.2 with ⟨-, hs⟩ | ⟨-, hs⟩
      · subst hs
        exact ih
      · subst hs
        simp [grantUpdate, countCreated, List.countP_append, List.countP_cons]
        rw [countCreated] at ih
        omega
    | store hv =>
      obtain ⟨-, -, value, -, hs⟩ := storeValue_ok hv
      subst hs
      simp [storeUpdate, countCreated, List.countP_append, List.countP_cons]
      rw [countCreated] at ih
      omega

/-- C7. Ids come from a monotonic counter: a fresh store counts 0, every
successful create returns the incremented counter (so successive creates
return strictly increasing ids starting at 1) and is the only call that
changes it, id 0 never denotes an existing database, no id above the counter
is in use (no reuse), and the counter equals the number of successful
creates (counted by their events). -/
theorem database_id_allocation :
    databaseCount initialState = 0 ∧
    (∀ s : VaultState, Reachable s →
      (s.databases 0).owner = 0 ∧
      (∀ id, databaseCount s < id → (s.databases id).owner = 0) ∧
      databaseCount s = countCreated s.events) ∧
    (∀ s s' : VaultState, ∀ verify : Nat → Nat → Option Nat,
      ∀ caller now : Nat, ∀ name : String, ∀ p pr id : Nat,
      createDatabase s verify caller now name p pr = .ok (id, s') →
      id = databaseCount s + 1 ∧ databaseCount s' = databaseCount s + 1) ∧
    (∀ s s' : VaultState, ∀ caller databaseId user : Nat,
      grantAccess s caller databaseId user = .ok s' →
      databaseCount s' = databaseCount s) ∧
    (∀ s s' : VaultState, ∀ verify : Nat → Nat → Option Nat,
      ∀ caller databaseId p pr : Nat,
      storeValue s verify caller databaseId p pr = .ok s' →
      databaseCount s' = databaseCount s) := by
  refine ⟨rfl, ?_, ?_, ?_, ?_⟩
  · intro s hr
    have hinv := reachable_inv hr
    exact ⟨hinv.zeroId, fun id hid => (hinv.fresh id hid).1,
      counter_eq_countCreated hr⟩
  · intro s s' verify caller now name p pr id hok
    obtain ⟨-, a, -, hid, hs⟩ := createDatabase_ok hok
    subst hs
    exact ⟨hid, rfl⟩
  · intro s s' caller databaseId user hok
    rcases (grantAccess_ok hok).2.2.2 with ⟨-, hs⟩ | ⟨-, hs⟩ <;> subst hs <;> rfl
  · intro s s' verify caller databaseId p pr hok
    obtain ⟨-, -, value, -, hs⟩ := storeValue_ok hok
    subst hs
    rfl

/-- C7 witness: the sample create returns id 1 = counter + 1 and bumps the
counter of the fresh store from 0 to 1. -/
theorem database_id_allocation_witness :
    1 = databaseCount initialState + 1 ∧
    databaseCount demoS1 = databaseCount initialState + 1 :=
  database_id_allocation.2.2.1 initialState demoS1 demoVerify 1 0 "ops" 7 0 1
    demo_create_eq

/-- C10. Every read guarded by the existence modifier reverts with NotFound
on an absent database id: isAuthorized (it never returns false there),
getEncryptedAddress, getEncryptedRecords and getEncryptedRecord. -/
theorem reads_notfound_on_absent {s : VaultState} {databaseId : Nat}
    (habs : (s.databases databaseId).owner = 0) :
    (∀ user, isAuthorized s databaseId user = .error .NotFound) ∧
    getEncryptedAddress s databaseId = .error .NotFound ∧
    getEncryptedRecords s databaseId = .error .NotFound ∧
    (∀ index, getEncryptedRecord s databaseId index = .error .NotFound) := by
  refine ⟨?_, ?_, ?_, ?_⟩
  · intro user
    simp [isAuthorized, habs]
  · simp [getEncryptedAddress, habs]
  · simp [getEncryptedRecords, habs]
  · intro index
    simp [getEncryptedRecord, habs]

/-- C10 witness: database 99 does not exist in `demoS1`; all four reads
revert with NotFound there. -/
theorem reads_notfound_on_absent_witness :
    isAuthorized demoS1 99 2 = .error .NotFound ∧
    getEncryptedAddress demoS1 99 = .error .NotFound ∧
    getEncryptedRecords demoS1 99 = .error .NotFound ∧
    getEncryptedRecord demoS1 99 0 = .error .NotFound :=
  ⟨(@reads_notfound_on_absent demoS1 99 (by decide)).1 2,
   (@reads_notfound_on_absent demoS1 99 (by decide)).2.1,
   (@reads_notfound_on_absent demoS1 99 (by decide)).2.2.1,
   (@reads_notfound_on_absent demoS1 99 (by decide)).2.2.2 0⟩

end SecureVaultDB
